import Mathlib

/-!
# Verification of `rename_images.py`

A shallow embedding of the two core functions of the repository,
`rename_and_copy_subfolder_mode` and `rename_and_copy_single_folder_mode`
(src/rename_images.py), together with theorems settling the specification
claims about them.

Modelling conventions:
* Python strings are modelled by `String` (a list of characters); all
  character-level operations (`str.lower`, `str.isdigit`, slicing,
  lexicographic comparison used by `sorted`) are modelled on `String.data`.
  `Char.toLower` agrees with Python `str.lower` on ASCII, the alphabet the
  program's filename conventions use.
* Filesystem effects are modelled by value-passing: directory listings are
  taken as input lists of filenames, and `shutil.copy2` calls are recorded
  as `(source filename, destination filename)` pairs.  Per-file I/O
  failures (caught and logged by the program) do not change which copies
  are attempted, so the model records the attempted copies.
* Fallible behaviour of the single-folder mode (early `return`s, the
  uncaught `ZeroDivisionError` of `num_files_per_batch % angle_num` when
  `angle_num == 0`, and the `ValueError` of `chr` past `0x10FFFF`) is
  modelled by the constructors of `SFResult`.
-/

namespace RenameImages

/-- The constant `SUPPORTED_IMAGE_EXTENSIONS` from src/rename_images.py line 40. -/
def SUPPORTED_IMAGE_EXTENSIONS : List String :=
  [".jpg", ".jpeg", ".png", ".gif", ".bmp", ".tiff"]

/-- The constant `RENAMED_FOLDER_NAME` from src/rename_images.py line 39. -/
def RENAMED_FOLDER_NAME : String := "renamed"

/-- Python `str.lower()` (ASCII). -/
def lowerStr (s : String) : String := String.mk (s.data.map Char.toLower)

/-- Model of `f.lower().endswith(SUPPORTED_IMAGE_EXTENSIONS)`: the filter applied to
directory listings (lines 70 and 107). -/
def isSupportedImage (f : String) : Bool :=
  SUPPORTED_IMAGE_EXTENSIONS.any fun e => e.data.isSuffixOf (f.data.map Char.toLower)

/-- Python string comparison: lexicographic on code points.  This is the
order used by `sorted(...)` on lists of filenames. -/
def pyCharsLe : List Char → List Char → Bool
  | [], _ => true
  | _ :: _, [] => false
  | a :: as, b :: bs =>
    if a.toNat < b.toNat then true
    else if b.toNat < a.toNat then false
    else pyCharsLe as bs

/-- Insert a string into a list that is sorted by `pyCharsLe`. -/
def pyInsert (f : String) : List String → List String
  | [] => [f]
  | g :: gs => if pyCharsLe f.data g.data then f :: g :: gs else g :: pyInsert f gs

/-- Python `sorted` on a list of strings (code-point lexicographic order).
Any correct sort produces the same list because the order is total and
antisymmetric on strings (distinct strings never compare equal), so a
structurally recursive insertion sort is an exact model of `sorted`. -/
def pySort : List String → List String
  | [] => []
  | f :: fs => pyInsert f (pySort fs)

/-- The extension part of `os.path.splitext(filename)` (including the dot)
for a plain filename without directory separators: everything from the last
dot on, unless every character before the last dot is itself a dot (the
CPython leading-dot rule, under which e.g. `".cshrc"` has no extension). -/
def splitextExt (f : String) : String :=
  let rcs := f.data.reverse
  match rcs.findIdx? (· == '.') with
  | none => ""
  | some r =>
    if (rcs.drop (r + 1)).all (· == '.') then ""
    else String.mk ((rcs.take (r + 1)).reverse)

/-- The regex character class `[a-zA-Z0-9]` of the guide-photo pattern. -/
def isAsciiAlnum (c : Char) : Bool :=
  (65 ≤ c.toNat && c.toNat ≤ 90) || (97 ≤ c.toNat && c.toNat ≤ 122) ||
    (48 ≤ c.toNat && c.toNat ≤ 57)

/-- Model of `ext.lstrip('.') for ext in SUPPORTED_IMAGE_EXTENSIONS` — the extension
alternatives of the guide-photo regex (line 119). -/
def extAlternatives : List String :=
  SUPPORTED_IMAGE_EXTENSIONS.map fun e => String.mk (e.data.dropWhile (· == '.'))

/-- One alternative of the guide-photo regex
`-([a-zA-Z0-9]{2})\.(jpg|jpeg|png|gif|bmp|tiff)$` with `re.IGNORECASE`
(lines 119-120), tried at the end of the filename: the pattern is anchored
by `$`, so a match with extension `ext` occupies exactly the last
`ext.length + 4` characters.  Returns the captured two-character batch id. -/
def guideSuffixMatch (cs : List Char) (ext : String) : Option String :=
  let k := ext.length + 4
  if cs.length < k then none
  else
    match cs.drop (cs.length - k) with
    | '-' :: c1 :: c2 :: '.' :: rest =>
      if isAsciiAlnum c1 && isAsciiAlnum c2 && decide (rest.map Char.toLower = ext.data) then
        some (String.mk [c1, c2])
      else none
    | _ => none

/-- Model of `guide_photo_pattern.search(filename)` returning the captured batch id
(`match.group(1)`).  At most one extension alternative can match (the
alternatives are pairwise incompatible as anchored suffixes), so trying
them in order is the regex's leftmost-match semantics. -/
def guideBatchId (f : String) : Option String :=
  extAlternatives.findSome? (guideSuffixMatch f.data)

/-- One entry of `guide_photos_info` (lines 123-131). -/
structure GuideInfo where
  filename : String
  index : Nat
  batchId : String
deriving DecidableEq, Repr

/-- The `for i, filename in enumerate(all_files)` scan building
`guide_photos_info` (lines 124-131), with `i` the running index. -/
def guideScan : Nat → List String → List GuideInfo
  | _, [] => []
  | i, f :: rest =>
    match guideBatchId f with
    | some b => ⟨f, i, b⟩ :: guideScan (i + 1) rest
    | none => guideScan (i + 1) rest

/-- The list `guide_photos_info` for a sorted file list. -/
def guidePhotosInfo (allFiles : List String) : List GuideInfo := guideScan 0 allFiles

/-- One entry of `batches` (lines 138-149). -/
structure Batch where
  guideFile : String
  batchId : String
  filesToRename : List String
deriving DecidableEq, Repr

/-- Python slice `l[s:e]` for natural bounds. -/
def pySlice (l : List String) (s e : Nat) : List String := (l.drop s).take (e - s)

/-- The batch-construction loop (lines 139-149): batch `i` spans from guide
`i`'s index to guide `i+1`'s index (exclusive), or to the end of the list
for the last guide; `files_to_rename` is `batch_files[1:]`. -/
def mkBatches (allFiles : List String) : List GuideInfo → List Batch
  | [] => []
  | [g] => [⟨g.filename, g.batchId, (pySlice allFiles g.index allFiles.length).drop 1⟩]
  | g :: g' :: rest =>
    ⟨g.filename, g.batchId, (pySlice allFiles g.index g'.index).drop 1⟩ ::
      mkBatches allFiles (g' :: rest)

/-- Model of `len(batches[0]['files_to_rename'])` (line 161).  `batches` is never
empty when this is evaluated (at least one guide photo exists); the `[]`
case is an unreachable default. -/
def firstBatchCount : List Batch → Nat
  | [] => 0
  | b :: _ => b.filesToRename.length

/-- Python format `f"{n:02d}"` for a natural number. -/
def pad2 (n : Nat) : String := if n < 10 then "0" ++ toString n else toString n

/-- The output filename of line 196:
`f"{region_code}-{date_code}-{batch_id}{group_id:02d}-{angle_suffix}{file_extension}"`
with `group_id = (j // angle_num) + 1` and
`angle_suffix = group_labels[j % angle_num] = chr(ord('A') + j % angle_num)`
(lines 174, 192-194). -/
def sfNewName (region date batchId : String) (angleNum j : Nat) (filename : String) : String :=
  region ++ "-" ++ date ++ "-" ++ batchId ++ pad2 (j / angleNum + 1) ++ "-" ++
    String.mk [Char.ofNat (65 + j % angleNum)] ++ lowerStr (splitextExt filename)

/-- The `for j, filename_to_rename in enumerate(batch['files_to_rename'])`
loop (lines 189-206), recording each attempted copy. -/
def renameBatchFiles (region date batchId : String) (angleNum : Nat) :
    Nat → List String → List (String × String)
  | _, [] => []
  | j, f :: rest =>
    (f, sfNewName region date batchId angleNum j f) ::
      renameBatchFiles region date batchId angleNum (j + 1) rest

/-- The per-batch body of the copy loop (lines 177-206): first the guide
photo is copied under its own name (line 183), then the batch's other
files are renamed. -/
def batchCopies (region date : String) (angleNum : Nat) (b : Batch) : List (String × String) :=
  (b.guideFile, b.guideFile) :: renameBatchFiles region date b.batchId angleNum 0 b.filesToRename

/-- Model of `last_guide_photo_index + len(batches[-1]['files_to_rename'])`
(lines 210-212), defined whenever at least one guide photo exists. -/
def lastProcessedIndex (guides : List GuideInfo) (batches : List Batch) : Option Nat :=
  match guides.getLast?, batches.getLast? with
  | some g, some b => some (g.index + b.filesToRename.length)
  | _, _ => none

/-- The post-pass of lines 208-217: warn about files after the last batch
that were never processed. -/
def leftoverWarning (allFiles : List String) (guides : List GuideInfo) (batches : List Batch) :
    Option (List String) :=
  match lastProcessedIndex guides batches with
  | none => none
  | some lp =>
    if lp < allFiles.length - 1 then
      let remaining := allFiles.drop (lp + 1)
      if remaining.isEmpty then none else some remaining
    else none

/-- The observable outcome of `rename_and_copy_single_folder_mode`:
either one of its early exits, an uncaught exception, or the list of
attempted `(source, destination)` copies together with the warnings that
accompany a completed run. -/
inductive SFResult where
  | noImages
  | noGuides
  | inconsistent (diagnostics : List (String × Nat))
  | notDivisible (count : Nat) (angleNum : Nat)
  | zeroDivisionError
  | chrValueError
  | ok (copies : List (String × String)) (zeroCountWarning : Bool)
      (leftoverWarn : Option (List String))
deriving DecidableEq, Repr

/-- The list `all_files` (line 107): the supported images of the folder listing, in
sorted order. -/
def sfAllFiles (listing : List String) : List String :=
  pySort (listing.filter isSupportedImage)

/-- The list `guide_photos_info` for the folder listing. -/
def sfGuides (listing : List String) : List GuideInfo :=
  guidePhotosInfo (sfAllFiles listing)

/-- The list `batches` for the folder listing. -/
def sfBatches (listing : List String) : List Batch :=
  mkBatches (sfAllFiles listing) (sfGuides listing)

/-- Model of `rename_and_copy_single_folder_mode` (lines 96-219) applied to a folder
listing.  The branches, in program order: no supported images (lines
109-111); no guide photos (lines 133-135); inconsistent batch sizes (lines
152-159); then the count check of lines 162-167, where a positive count
with `angle_num == 0` raises `ZeroDivisionError` inside
`num_files_per_batch % angle_num`, a positive non-divisible count aborts,
and a zero count merely warns; then `group_labels` generation (line 174),
where `chr(ord('A') + i)` raises `ValueError` once `65 + angle_num - 1`
exceeds `0x10FFFF`; finally the copy loop and the leftover post-pass. -/
def singleFolderRun (listing : List String) (region date : String) (angleNum : Nat) : SFResult :=
  if (sfAllFiles listing).isEmpty then .noImages
  else if (sfGuides listing).isEmpty then .noGuides
  else if 1 < (sfBatches listing).length &&
      !((sfBatches listing).all fun b =>
          b.filesToRename.length == firstBatchCount (sfBatches listing)) then
    .inconsistent ((sfBatches listing).map fun b => (b.guideFile, b.filesToRename.length))
  else if firstBatchCount (sfBatches listing) != 0 && angleNum == 0 then
    .zeroDivisionError
  else if firstBatchCount (sfBatches listing) != 0 &&
      firstBatchCount (sfBatches listing) % angleNum != 0 then
    .notDivisible (firstBatchCount (sfBatches listing)) angleNum
  else if 1114047 < angleNum then .chrValueError
  else
    .ok ((sfBatches listing).flatMap (batchCopies region date angleNum))
      (firstBatchCount (sfBatches listing) == 0)
      (leftoverWarning (sfAllFiles listing) (sfGuides listing) (sfBatches listing))

/-- The copies attempted by a run (empty whenever the run aborted before
its copy loop). -/
def sfCopies : SFResult → List (String × String)
  | .ok c _ _ => c
  | _ => []

/-- The filenames mentioned by a run's warning/diagnostic messages: the
inconsistency diagnostic lists each batch's guide filename (lines 157-158),
and the leftover warning lists the unprocessed files (lines 216-217).  The
remaining messages mention no input filenames. -/
def sfWarnedFiles : SFResult → List String
  | .inconsistent diag => diag.map Prod.fst
  | .ok _ _ (some r) => r
  | _ => []

/-- Predicate: `s` contains no ASCII uppercase letter (used to state that an
extension is lower-cased). -/
def asciiNoUpper (s : String) : Bool :=
  s.data.all fun c => !(65 ≤ c.toNat && c.toNat ≤ 90)

/-- Python `chr(n)` as a code point: raises `ValueError` (here `none`) for
arguments above `0x10FFFF = 1114111`. -/
def pyChr (n : Nat) : Option Nat := if n ≤ 1114111 then some n else none

/-- Apply `pyChr` to every element, propagating a raise (`none`). -/
def mapChr : List Nat → Option (List Nat)
  | [] => some []
  | n :: ns =>
    match pyChr n, mapChr ns with
    | some c, some cs => some (c :: cs)
    | _, _ => none

/-- Model of `group_labels = [chr(ord('A') + i) for i in range(angle_num)]`
(line 174), with `chr` modelled faithfully: the comprehension raises iff
some `chr` call raises. -/
def groupLabelCodes (angleNum : Nat) : Option (List Nat) :=
  mapChr ((List.range angleNum).map fun i => 65 + i)

/-! ## Subfolder mode -/

mutual

/-- A directory tree: a name, the subdirectories, and the plain files. -/
inductive FSTree where
  | node (name : String) (subdirs : FSForest) (files : List String)

/-- A list of sibling directory trees (a mutual inductive rather than
`List FSTree`, so that the walk below is structurally recursive). -/
inductive FSForest where
  | nil
  | cons (t : FSTree) (ts : FSForest)

end

/-- The name of the root directory of a tree. -/
def FSTree.topName : FSTree → String
  | .node n _ _ => n

mutual

/-- Model of `os.walk` over a directory tree, top-down: yields `(root, files)` for
the directory itself and then, recursively, for every subdirectory at any
depth, in order.  Paths are component lists; `pre` is the path of the
parent directory. -/
def walkTree (pre : List String) : FSTree → List (List String × List String)
  | .node n subs files => (pre ++ [n], files) :: walkForest (pre ++ [n]) subs

/-- Model of `os.walk` over a list of sibling subdirectories. -/
def walkForest (pre : List String) : FSForest → List (List String × List String)
  | .nil => []
  | .cons t ts => walkTree pre t ++ walkForest pre ts

end

/-- Python `sample_number.isdigit()` (ASCII digits; `""` is not a digit
string). -/
def pyIsDigit (s : String) : Bool := !s.data.isEmpty && s.data.all Char.isDigit

/-- The list `angle_suffixes = ['A', 'B', 'C', 'D']` (line 56). -/
def angleSuffixes : List String := ["A", "B", "C", "D"]

/-- The output filename of line 83:
`f"{region_code}-{date_code}-{sample_number}-{angle_suffix}{file_extension}"`. -/
def subNewName (region date sample angle : String) (f : String) : String :=
  region ++ "-" ++ date ++ "-" ++ sample ++ "-" ++ angle ++ lowerStr (splitextExt f)

/-- The body of the `os.walk` loop of `rename_and_copy_subfolder_mode`
(lines 59-91) for one walk entry `(root, files)`: skip the renamed
directory and the base directory themselves; skip directories whose
basename is not a 4-digit number and directories without supported images;
otherwise copy the first `len(angle_suffixes)` sorted images (the loop
breaks at index 4), pairing image `i` with `angle_suffixes[i]` — i.e.
zipping the sorted images with the suffix list.  Each attempted copy is
recorded as `(root, source filename, destination filename)`. -/
def processEntry (region date : String) (basePath : List String)
    (entry : List String × List String) : List (List String × String × String) :=
  if entry.1 = basePath ++ [RENAMED_FOLDER_NAME] then []
  else if entry.1 = basePath then []
  else
    let sample := entry.1.getLast?.getD ""
    if !(pyIsDigit sample && sample.length == 4) then []
    else
      let images := pySort (entry.2.filter isSupportedImage)
      if images.isEmpty then []
      else (images.zip angleSuffixes).map fun p =>
        (entry.1, p.1, subNewName region date sample p.2 p.1)

/-- Model of `rename_and_copy_subfolder_mode` (lines 51-93) over a directory tree:
all attempted copies, in walk order. -/
def subfolderRun (tree : FSTree) (region date : String) :
    List (List String × String × String) :=
  (walkTree [] tree).flatMap (processEntry region date [tree.topName])

/-! ## Helper lemmas -/

theorem charOfNat_toNat {n : Nat} (hv : Nat.isValidChar n) : (Char.ofNat n).toNat = n := by
  simp only [Char.ofNat, hv, dif_pos, Char.ofNatAux, Char.toNat, UInt32.ofNatCore,
    UInt32.toNat, BitVec.toNat_ofNatLt]

theorem toLower_not_upper (c : Char) :
    (Char.toLower c).toNat < 65 ∨ 90 < (Char.toLower c).toNat := by
  unfold Char.toLower
  simp only
  split
  · next h =>
    have hv : Nat.isValidChar (c.toNat + 32) := Or.inl (by omega)
    have := charOfNat_toNat hv
    omega
  · next h => omega

theorem asciiNoUpper_lowerStr (s : String) : asciiNoUpper (lowerStr s) = true := by
  simp only [asciiNoUpper, lowerStr, List.all_eq_true]
  intro c hc
  obtain ⟨c0, -, rfl⟩ := List.mem_map.mp hc
  have h := toLower_not_upper c0
  simp only [Bool.not_eq_true', Bool.and_eq_false_iff, decide_eq_false_iff_not, Nat.not_le]
  omega

theorem mem_of_getElemOpt {α : Type} {l : List α} (n : Nat) {a : α}
    (h : l[n]? = some a) : a ∈ l := by
  obtain ⟨hn, rfl⟩ := List.getElem?_eq_some_iff.mp h
  exact List.getElem_mem hn

theorem drop_subset_drop {α : Type} (l : List α) {m n : Nat} (h : n ≤ m) :
    l.drop m ⊆ l.drop n := by
  intro x hx
  rw [show m = n + (m - n) by omega, ← List.drop_drop] at hx
  exact List.drop_subset _ _ hx

theorem nodup_not_mem_drop {α : Type} {l : List α} {i : Nat} {a : α}
    (hnd : l.Nodup) (ha : l[i]? = some a) : a ∉ l.drop (i + 1) := by
  intro hmem
  have h1 : a ∈ l.take (i + 1) := by
    apply mem_of_getElemOpt i
    rw [List.getElem?_take, if_pos (Nat.lt_succ_self i)]
    exact ha
  exact List.disjoint_take_drop hnd le_rfl h1 hmem

theorem map_fst_zip_eq_take {α β : Type} :
    ∀ (l : List α) (l' : List β), (l.zip l').map Prod.fst = l.take l'.length
  | [], _ => by simp
  | _ :: _, [] => by simp
  | a :: l, b :: l' => by
    simp only [List.zip_cons_cons, List.map_cons, List.length_cons, List.take_succ_cons]
    rw [map_fst_zip_eq_take l l']

/-! ### Guide-photo scan invariants -/

theorem guideScan_mem {g : GuideInfo} :
    ∀ {i : Nat} {l : List String}, g ∈ guideScan i l →
      i ≤ g.index ∧ g.index < i + l.length ∧ l[g.index - i]? = some g.filename := by
  intro i l
  induction l generalizing i with
  | nil => intro h; simp [guideScan] at h
  | cons f rest ih =>
    intro h
    unfold guideScan at h
    cases e : guideBatchId f with
    | some b =>
      rw [e] at h
      rcases List.mem_cons.mp h with h1 | h2
      · subst h1
        refine ⟨le_rfl, by simp, ?_⟩
        simp
      · obtain ⟨ha, hb, hc⟩ := ih h2
        refine ⟨by omega, by simp only [List.length_cons]; omega, ?_⟩
        rw [show g.index - i = (g.index - (i + 1)) + 1 by omega, List.getElem?_cons_succ]
        exact hc
    | none =>
      rw [e] at h
      obtain ⟨ha, hb, hc⟩ := ih h
      refine ⟨by omega, by simp only [List.length_cons]; omega, ?_⟩
      rw [show g.index - i = (g.index - (i + 1)) + 1 by omega, List.getElem?_cons_succ]
      exact hc

theorem guideScan_pairwise (i : Nat) (l : List String) :
    (guideScan i l).Pairwise fun a b => a.index < b.index := by
  induction l generalizing i with
  | nil => simp [guideScan]
  | cons f rest ih =>
    unfold guideScan
    cases e : guideBatchId f with
    | some b =>
      refine List.Pairwise.cons ?_ (ih (i + 1))
      intro g hg
      have := guideScan_mem hg
      simp only
      omega
    | none => exact ih (i + 1)

theorem guideScan_head_min {l : List String} {g0 g : GuideInfo}
    (h0 : (guidePhotosInfo l).head? = some g0) (hg : g ∈ guidePhotosInfo l) :
    g0.index ≤ g.index := by
  have hp := guideScan_pairwise 0 l
  unfold guidePhotosInfo at h0 hg
  cases e : guideScan 0 l with
  | nil => rw [e] at h0; cases h0
  | cons a t =>
    rw [e] at h0 hg hp
    cases h0
    rcases List.mem_cons.mp hg with h1 | h2
    · rw [h1]
    · exact le_of_lt ((List.pairwise_cons.mp hp).1 g h2)

/-! ### Batch-construction invariants -/

theorem mkBatches_ne_nil (A : List String) (gs : List GuideInfo) (h : gs ≠ []) :
    mkBatches A gs ≠ [] := by
  match gs with
  | [g] => simp [mkBatches]
  | g :: g2 :: rest => simp [mkBatches]

theorem mkBatches_mem {A : List String} :
    ∀ {gs : List GuideInfo} {b : Batch}, b ∈ mkBatches A gs →
      ∃ g ∈ gs, b.guideFile = g.filename ∧ b.batchId = g.batchId ∧
        ∃ e, b.filesToRename = (pySlice A g.index e).drop 1 := by
  intro gs
  induction gs with
  | nil => intro b h; simp [mkBatches] at h
  | cons g rest ih =>
    intro b h
    cases rest with
    | nil =>
      simp only [mkBatches, List.mem_singleton] at h
      subst h
      exact ⟨g, List.mem_cons_self g [], rfl, rfl, A.length, rfl⟩
    | cons g2 rest2 =>
      rcases List.mem_cons.mp h with h1 | h2
      · subst h1
        exact ⟨g, List.mem_cons_self _ _, rfl, rfl, g2.index, rfl⟩
      · obtain ⟨g', hg', hrest⟩ := ih h2
        exact ⟨g', List.mem_cons_of_mem _ hg', hrest⟩

theorem mkBatches_getLast (A : List String) :
    ∀ {gs : List GuideInfo} {g : GuideInfo}, gs.getLast? = some g →
      (mkBatches A gs).getLast? =
        some ⟨g.filename, g.batchId, (pySlice A g.index A.length).drop 1⟩ := by
  intro gs
  induction gs with
  | nil => intro g h; cases h
  | cons g1 rest ih =>
    intro g h
    cases rest with
    | nil =>
      simp only [List.getLast?_singleton, Option.some.injEq] at h
      subst h
      rfl
    | cons g2 rest2 =>
      rw [List.getLast?_cons_cons] at h
      have h2 := ih h
      obtain ⟨x, xs, e⟩ := List.exists_cons_of_ne_nil
        (mkBatches_ne_nil A (g2 :: rest2) (by simp))
      show (Batch.mk g1.filename g1.batchId _ :: mkBatches A (g2 :: rest2)).getLast? = _
      rw [e, List.getLast?_cons_cons, ← e, h2]

/-! ### Pipeline inversion lemmas -/

theorem sfGuides_ne_nil_of_batches {listing : List String}
    (h : sfBatches listing ≠ []) : sfGuides listing ≠ [] := by
  intro e
  apply h
  unfold sfBatches
  rw [e]
  rfl

theorem sfAllFiles_ne_nil_of_guides {listing : List String}
    (h : sfGuides listing ≠ []) : sfAllFiles listing ≠ [] := by
  intro e
  apply h
  unfold sfGuides guidePhotosInfo
  rw [e]
  rfl

theorem sfRun_ok_inv {listing : List String} {region date : String} {angleNum : Nat}
    {c : List (String × String)} {zw : Bool} {lw : Option (List String)}
    (h : singleFolderRun listing region date angleNum = .ok c zw lw) :
    c = (sfBatches listing).flatMap (batchCopies region date angleNum) ∧
    zw = (firstBatchCount (sfBatches listing) == 0) ∧
    lw = leftoverWarning (sfAllFiles listing) (sfGuides listing) (sfBatches listing) ∧
    sfGuides listing ≠ [] := by
  unfold singleFolderRun at h
  split at h
  · cases h
  · split at h
    · cases h
    · next h2 =>
      split at h
      · cases h
      · split at h
        · cases h
        · split at h
          · cases h
          · split at h
            · cases h
            · cases h
              exact ⟨rfl, rfl, rfl, by simpa [List.isEmpty_iff] using h2⟩

theorem sfRun_inconsistent_inv {listing : List String} {region date : String}
    {angleNum : Nat} {d : List (String × Nat)}
    (h : singleFolderRun listing region date angleNum = .inconsistent d) :
    d = (sfBatches listing).map fun b => (b.guideFile, b.filesToRename.length) := by
  unfold singleFolderRun at h
  split at h
  · cases h
  · split at h
    · cases h
    · split at h
      · cases h; rfl
      · split at h
        · cases h
        · split at h
          · cases h
          · split at h
            · cases h
            · cases h

/-! ### Copy-loop lemmas -/

theorem renameBatchFiles_mem (region date batchId : String) (angleNum : Nat)
    (fs : List String) (k j : Nat) (hj : j < fs.length) :
    (fs[j], sfNewName region date batchId angleNum (k + j) fs[j]) ∈
      renameBatchFiles region date batchId angleNum k fs := by
  induction fs generalizing k j with
  | nil => simp at hj
  | cons f rest ih =>
    cases j with
    | zero => simp [renameBatchFiles]
    | succ j2 =>
      have h2 := ih (k + 1) j2 (by simpa using hj)
      rw [show k + 1 + j2 = k + (j2 + 1) by omega] at h2
      simp only [renameBatchFiles, List.getElem_cons_succ]
      exact List.mem_cons_of_mem _ h2

theorem renameBatchFiles_mem_inv {region date batchId : String} {angleNum : Nat}
    {p : String × String} :
    ∀ {k : Nat} {fs : List String}, p ∈ renameBatchFiles region date batchId angleNum k fs →
      p.1 ∈ fs ∧ ∃ j, p.2 = sfNewName region date batchId angleNum j p.1 := by
  intro k fs
  induction fs generalizing k with
  | nil => intro h; simp [renameBatchFiles] at h
  | cons f rest ih =>
    intro h
    simp only [renameBatchFiles] at h
    rcases List.mem_cons.mp h with h1 | h2
    · rw [h1]
      exact ⟨List.mem_cons_self _ _, k, rfl⟩
    · obtain ⟨ha, hb⟩ := ih h2
      exact ⟨List.mem_cons_of_mem _ ha, hb⟩

/-! ### Leftover post-pass lemmas -/

theorem lastProcessed_eq {listing : List String} (h : sfGuides listing ≠ []) :
    lastProcessedIndex (sfGuides listing) (sfBatches listing) =
      some ((sfAllFiles listing).length - 1) := by
  obtain ⟨g, hg⟩ := Option.isSome_iff_exists.mp (List.getLast?_isSome.mpr h)
  have hmem : g ∈ sfGuides listing := List.mem_of_mem_getLast? hg
  have hidx := guideScan_mem hmem
  have hglt : g.index < (sfAllFiles listing).length := by
    have := hidx.2.1
    omega
  have hB := mkBatches_getLast (sfAllFiles listing) hg
  unfold lastProcessedIndex
  rw [hg]
  unfold sfBatches at hB ⊢
  rw [hB]
  simp only [Option.some.injEq]
  simp only [pySlice, List.length_drop, List.length_take]
  omega

theorem leftoverWarning_none {listing : List String} (h : sfGuides listing ≠ []) :
    leftoverWarning (sfAllFiles listing) (sfGuides listing) (sfBatches listing) = none := by
  unfold leftoverWarning
  rw [lastProcessed_eq h]
  simp

/-! ## Claim theorems -/

/-- Claim C5: in single-folder mode, the post-pass check for files left
unprocessed after the final batch is arithmetically unreachable: whenever at
least one guide photo exists (the only way the copy phase can be reached),
`last_processed_index` equals `len(all_files) - 1`, so the
"files never processed" warning is never emitted. -/
theorem sf_c5_leftover_unreachable (listing : List String)
    (h : sfGuides listing ≠ []) :
    lastProcessedIndex (sfGuides listing) (sfBatches listing) =
      some ((sfAllFiles listing).length - 1) ∧
    leftoverWarning (sfAllFiles listing) (sfGuides listing) (sfBatches listing) = none :=
  ⟨lastProcessed_eq h, leftoverWarning_none h⟩

/-- Witness for C5 at the concrete listing `["a-01.jpg", "b.jpg"]`. -/
theorem sf_c5_leftover_unreachable_witness :
    lastProcessedIndex (sfGuides ["a-01.jpg", "b.jpg"]) (sfBatches ["a-01.jpg", "b.jpg"]) =
      some 1 ∧
    leftoverWarning (sfAllFiles ["a-01.jpg", "b.jpg"]) (sfGuides ["a-01.jpg", "b.jpg"])
      (sfBatches ["a-01.jpg", "b.jpg"]) = none :=
  ⟨(sf_c5_leftover_unreachable ["a-01.jpg", "b.jpg"] (by decide)).1.trans (by decide),
    (sf_c5_leftover_unreachable ["a-01.jpg", "b.jpg"] (by decide)).2⟩

/-- Claim C4: in single-folder mode with more than one batch, if the batches
do not all have equal counts of non-guide files, the run aborts with the
diagnostic listing each batch's guide filename and its file count, and no
files at all are copied (the abort happens before the copy loop). -/
theorem sf_c4_inconsistent_aborts (listing : List String) (region date : String)
    (angleNum : Nat)
    (hlen : 1 < (sfBatches listing).length)
    (hne : ((sfBatches listing).all fun b =>
        b.filesToRename.length == firstBatchCount (sfBatches listing)) = false) :
    singleFolderRun listing region date angleNum =
      .inconsistent ((sfBatches listing).map fun b => (b.guideFile, b.filesToRename.length)) ∧
    sfCopies (singleFolderRun listing region date angleNum) = [] := by
  have hBne : sfBatches listing ≠ [] := by
    intro e; rw [e] at hlen; simp at hlen
  have hG := sfGuides_ne_nil_of_batches hBne
  have hA := sfAllFiles_ne_nil_of_guides hG
  have e1 : (sfAllFiles listing).isEmpty = false := List.isEmpty_eq_false.mpr hA
  have e2 : (sfGuides listing).isEmpty = false := List.isEmpty_eq_false.mpr hG
  have hrun : singleFolderRun listing region date angleNum =
      .inconsistent ((sfBatches listing).map fun b =>
        (b.guideFile, b.filesToRename.length)) := by
    unfold singleFolderRun
    rw [e1, e2, hne]
    simp [hlen]
  exact ⟨hrun, by rw [hrun]; rfl⟩

/-- Witness for C4 at the concrete listing
`["a-01.jpg", "b.jpg", "c-02.jpg", "d.jpg", "e.jpg"]` (batch sizes 1 and 2). -/
theorem sf_c4_inconsistent_aborts_witness :
    singleFolderRun ["a-01.jpg", "b.jpg", "c-02.jpg", "d.jpg", "e.jpg"] "SY" "250623" 4 =
      .inconsistent ((sfBatches ["a-01.jpg", "b.jpg", "c-02.jpg", "d.jpg", "e.jpg"]).map
        fun b => (b.guideFile, b.filesToRename.length)) ∧
    sfCopies (singleFolderRun ["a-01.jpg", "b.jpg", "c-02.jpg", "d.jpg", "e.jpg"]
      "SY" "250623" 4) = [] :=
  sf_c4_inconsistent_aborts ["a-01.jpg", "b.jpg", "c-02.jpg", "d.jpg", "e.jpg"]
    "SY" "250623" 4 (by decide) (by decide)

/-- Claim C9 (implicit): in single-folder mode, calling the core function with
`angle_num = 0` when the common per-batch non-guide file count is positive
raises an uncaught `ZeroDivisionError` from the divisibility check
`num_files_per_batch % angle_num`, instead of logging a diagnostic and
returning. -/
theorem sf_c9_zero_angle_zdiv (listing : List String) (region date : String)
    (hpos : 0 < firstBatchCount (sfBatches listing))
    (hcons : ((sfBatches listing).all fun b =>
        b.filesToRename.length == firstBatchCount (sfBatches listing)) = true) :
    singleFolderRun listing region date 0 = .zeroDivisionError := by
  have hBne : sfBatches listing ≠ [] := by
    intro e; rw [e] at hpos; simp [firstBatchCount] at hpos
  have hG := sfGuides_ne_nil_of_batches hBne
  have hA := sfAllFiles_ne_nil_of_guides hG
  have e1 : (sfAllFiles listing).isEmpty = false := List.isEmpty_eq_false.mpr hA
  have e2 : (sfGuides listing).isEmpty = false := List.isEmpty_eq_false.mpr hG
  have e4 : (firstBatchCount (sfBatches listing) != 0) = true := by
    simpa using Nat.pos_iff_ne_zero.mp hpos
  unfold singleFolderRun
  rw [e1, e2, hcons, e4]
  simp

/-- Witness for C9 at the concrete listing `["a-01.jpg", "b.jpg"]`
(one batch with one non-guide file). -/
theorem sf_c9_zero_angle_zdiv_witness :
    singleFolderRun ["a-01.jpg", "b.jpg"] "SY" "250623" 0 = .zeroDivisionError :=
  sf_c9_zero_angle_zdiv ["a-01.jpg", "b.jpg"] "SY" "250623" (by decide) (by decide)

/-- Claim C3: in single-folder mode, for every batch of a run that passes the
consistency and divisibility checks (i.e. a run that reaches the copy
phase and returns its copies), the guide photo is copied under its
unchanged original filename, and the non-guide file at 0-indexed position
`j` within the batch is copied to
`{REGION}-{DATE}-{BATCHID}{GROUPID:02d}-{ANGLE}{ext}` where
`GROUPID = (j // angle_num) + 1` zero-padded to 2 digits, `ANGLE` is the
`(j % angle_num)`-th letter starting at 'A', and `ext` is the original
extension lower-cased. -/
theorem sf_c3_rename_formula (listing : List String) (region date : String)
    (angleNum : Nat) (c : List (String × String)) (zw : Bool) (lw : Option (List String))
    (h : singleFolderRun listing region date angleNum = .ok c zw lw) :
    ∀ b ∈ sfBatches listing,
      (b.guideFile, b.guideFile) ∈ c ∧
      ∀ j (hj : j < b.filesToRename.length),
        (b.filesToRename[j],
          region ++ "-" ++ date ++ "-" ++ b.batchId ++ pad2 (j / angleNum + 1) ++ "-" ++
            String.mk [Char.ofNat (65 + j % angleNum)] ++
            lowerStr (splitextExt b.filesToRename[j])) ∈ c := by
  intro b hb
  obtain ⟨hc, -, -, -⟩ := sfRun_ok_inv h
  subst hc
  constructor
  · exact List.mem_flatMap.mpr ⟨b, hb, List.mem_cons_self _ _⟩
  · intro j hj
    refine List.mem_flatMap.mpr ⟨b, hb, List.mem_cons.mpr (Or.inr ?_)⟩
    have h2 := renameBatchFiles_mem region date b.batchId angleNum b.filesToRename 0 j hj
    simpa [sfNewName] using h2

/-- Witness for C3: the run on `["ah-01.jpg", "b1.JPG", "b2.jpg"]` with
`angle_num = 2` copies the guide unchanged and renames the file at
position 0 of the batch according to the formula. -/
theorem sf_c3_rename_formula_witness :
    ("ah-01.jpg", "ah-01.jpg") ∈
      [("ah-01.jpg", "ah-01.jpg"), ("b1.JPG", "SY-250623-0101-A.jpg"),
        ("b2.jpg", "SY-250623-0101-B.jpg")] ∧
    ((["b1.JPG", "b2.jpg"])[0],
      "SY" ++ "-" ++ "250623" ++ "-" ++ "01" ++ pad2 (0 / 2 + 1) ++ "-" ++
        String.mk [Char.ofNat (65 + 0 % 2)] ++
        lowerStr (splitextExt (["b1.JPG", "b2.jpg"])[0])) ∈
      [("ah-01.jpg", "ah-01.jpg"), ("b1.JPG", "SY-250623-0101-A.jpg"),
        ("b2.jpg", "SY-250623-0101-B.jpg")] := by
  have h := sf_c3_rename_formula ["ah-01.jpg", "b1.JPG", "b2.jpg"] "SY" "250623" 2
    [("ah-01.jpg", "ah-01.jpg"), ("b1.JPG", "SY-250623-0101-A.jpg"),
      ("b2.jpg", "SY-250623-0101-B.jpg")] false none (by decide)
    ⟨"ah-01.jpg", "01", ["b1.JPG", "b2.jpg"]⟩ (by decide)
  exact ⟨h.1, h.2 0 (by decide)⟩

/-- Claim C6, corrected: in single-folder mode every *renamed* (non-guide)
file placed in the output directory has a lower-cased extension, but guide
photos are copied under their unchanged original filename, so their
extension keeps its original case (see the counterexample): every recorded
copy either is a guide photo copied to its own name, or its destination
ends in the lower-cased extension of its source. -/
theorem sf_c6_ext_lower_amended (listing : List String) (region date : String)
    (angleNum : Nat) (c : List (String × String)) (zw : Bool) (lw : Option (List String))
    (h : singleFolderRun listing region date angleNum = .ok c zw lw) :
    ∀ p ∈ c,
      (∃ b ∈ sfBatches listing, p = (b.guideFile, b.guideFile)) ∨
      (∃ s, p.2 = s ++ lowerStr (splitextExt p.1) ∧
        asciiNoUpper (lowerStr (splitextExt p.1)) = true) := by
  intro p hp
  obtain ⟨hc, -, -, -⟩ := sfRun_ok_inv h
  subst hc
  obtain ⟨b, hb, hpb⟩ := List.mem_flatMap.mp hp
  simp only [batchCopies] at hpb
  rcases List.mem_cons.mp hpb with h1 | h2
  · exact Or.inl ⟨b, hb, h1⟩
  · right
    obtain ⟨-, j, hj⟩ := renameBatchFiles_mem_inv h2
    exact ⟨region ++ "-" ++ date ++ "-" ++ b.batchId ++ pad2 (j / angleNum + 1) ++ "-" ++
      String.mk [Char.ofNat (65 + j % angleNum)], hj, asciiNoUpper_lowerStr _⟩

/-- Counterexample refuting C6 as stated: a guide photo with an upper-case
extension is copied under its original name, so the file placed in the
output directory does *not* have a lower-cased extension. -/
theorem sf_c6_guide_ext_cex :
    singleFolderRun ["g-01.JPG"] "SY" "250623" 4 =
      .ok [("g-01.JPG", "g-01.JPG")] true none ∧
    splitextExt "g-01.JPG" = ".JPG" ∧
    lowerStr ".JPG" = ".jpg" ∧
    (".JPG" : String) ≠ ".jpg" ∧
    asciiNoUpper ".JPG" = false := by decide

/-- Witness for the amended C6 at the copy
`("b1.JPG", "SY-250623-0101-A.jpg")` of a concrete run: the destination
ends in the lower-cased extension of the source. -/
theorem sf_c6_ext_lower_amended_witness :
    (∃ b ∈ sfBatches ["ah-01.jpg", "b1.JPG"],
      (("b1.JPG", "SY-250623-0101-A.jpg") : String × String) = (b.guideFile, b.guideFile)) ∨
    (∃ s, "SY-250623-0101-A.jpg" = s ++ lowerStr (splitextExt "b1.JPG") ∧
      asciiNoUpper (lowerStr (splitextExt "b1.JPG")) = true) := by
  have h := sf_c6_ext_lower_amended ["ah-01.jpg", "b1.JPG"] "SY" "250623" 1
    [("ah-01.jpg", "ah-01.jpg"), ("b1.JPG", "SY-250623-0101-A.jpg")] false none (by decide)
  exact h ("b1.JPG", "SY-250623-0101-A.jpg") (by decide)

theorem mapChr_eq_some :
    ∀ {l : List Nat}, (∀ n ∈ l, n ≤ 1114111) → mapChr l = some l := by
  intro l
  induction l with
  | nil => intro h; rfl
  | cons n ns ih =>
    intro h
    have h1 : pyChr n = some n := by
      unfold pyChr
      rw [if_pos (h n (List.mem_cons_self _ _))]
    have h2 := ih fun m hm => h m (List.mem_cons_of_mem _ hm)
    unfold mapChr
    rw [h1, h2]

/-- Claim C7, corrected: letter-angle label generation does *not* raise when
the alphabet is exhausted: for every `angle_num` up to `1114047` (the point
where `chr(ord('A') + i)` first exceeds `0x10FFFF`) the comprehension
succeeds, and for `angle_num > 26` it produces code points beyond 'Z'
(code 90) — in particular code 91, the character '[' — rather than
raising. -/
theorem sf_c7_labels_amended (a : Nat) (h : a ≤ 1114047) :
    groupLabelCodes a = some ((List.range a).map fun i => 65 + i) ∧
    (26 < a → 91 ∈ (List.range a).map fun i => 65 + i) := by
  constructor
  · unfold groupLabelCodes
    apply mapChr_eq_some
    intro n hn
    obtain ⟨i, hi, rfl⟩ := List.mem_map.mp hn
    have := List.mem_range.mp hi
    omega
  · intro h26
    exact List.mem_map.mpr ⟨26, List.mem_range.mpr h26, rfl⟩

/-- Counterexample refuting C7 as stated: invoking label generation with
`angle_num = 27 > 26` does not raise; it produces the 27 labels
'A'..'Z' followed by code 91 ('['), a label beyond 'Z'. -/
theorem sf_c7_labels_cex :
    groupLabelCodes 27 ≠ none ∧
    groupLabelCodes 27 = some [65, 66, 67, 68, 69, 70, 71, 72, 73, 74, 75, 76, 77,
      78, 79, 80, 81, 82, 83, 84, 85, 86, 87, 88, 89, 90, 91] := by decide

/-- Witness for the amended C7 at `angle_num = 27`. -/
theorem sf_c7_labels_amended_witness :
    groupLabelCodes 27 = some ((List.range 27).map fun i => 65 + i) ∧
    91 ∈ (List.range 27).map fun i => 65 + i := by
  have h := sf_c7_labels_amended 27 (by decide)
  exact ⟨h.1, h.2 (by decide)⟩

/-- Claim C1, corrected: in single-folder mode, for a sorted list of 10
supported image files with guide photos exactly at indices 2 and 7, batch
construction yields two batches: batch 1 spans indices [2,7) and contains
**5** files (the guide plus **4** files to rename, not 6 and 5 as claimed),
and batch 2 spans [7,10) and contains 3 files (the guide plus 2 to
rename). -/
theorem sf_c1_batch_bounds (listing : List String)
    (hg : (sfGuides listing).map GuideInfo.index = [2, 7])
    (hlen : (sfAllFiles listing).length = 10) :
    ((sfBatches listing).map fun b => b.filesToRename) =
      [pySlice (sfAllFiles listing) 3 7, pySlice (sfAllFiles listing) 8 10] ∧
    ((sfBatches listing).map fun b => 1 + b.filesToRename.length) = [5, 3] := by
  obtain ⟨g1, g2, hgs, h1, h2⟩ :
      ∃ g1 g2, sfGuides listing = [g1, g2] ∧ g1.index = 2 ∧ g2.index = 7 := by
    cases e : sfGuides listing with
    | nil => rw [e] at hg; cases hg
    | cons a t =>
      cases t with
      | nil => rw [e] at hg; simp at hg
      | cons b t2 =>
        cases t2 with
        | nil =>
          rw [e] at hg
          simp only [List.map_cons, List.map_nil, List.cons.injEq, and_true] at hg
          exact ⟨a, b, rfl, hg.1, hg.2⟩
        | cons c t3 => rw [e] at hg; simp at hg
  have hB : sfBatches listing =
      [⟨g1.filename, g1.batchId, (pySlice (sfAllFiles listing) 2 7).drop 1⟩,
        ⟨g2.filename, g2.batchId,
          (pySlice (sfAllFiles listing) 7 (sfAllFiles listing).length).drop 1⟩] := by
    unfold sfBatches
    rw [hgs]
    simp [mkBatches, h1, h2]
  have hslice1 : (pySlice (sfAllFiles listing) 2 7).drop 1 =
      pySlice (sfAllFiles listing) 3 7 := by
    unfold pySlice
    rw [List.drop_take, List.drop_drop]
  have hslice2 : (pySlice (sfAllFiles listing) 7 (sfAllFiles listing).length).drop 1 =
      pySlice (sfAllFiles listing) 8 10 := by
    unfold pySlice
    rw [hlen, List.drop_take, List.drop_drop]
  constructor
  · rw [hB]
    simp only [List.map_cons, List.map_nil]
    rw [hslice1, hslice2]
  · rw [hB]
    simp only [List.map_cons, List.map_nil, hslice1, hslice2, pySlice,
      List.length_take, List.length_drop, hlen]
    norm_num

/-- Counterexample refuting C1 as stated, at a concrete sorted 10-file
listing with guide photos exactly at indices 2 and 7: batch 1 contains
5 files (1 guide + 4 to rename), not the claimed 6 (1 guide + 5). -/
theorem sf_c1_batch_counts_cex :
    ((sfAllFiles ["a0.jpg", "a1.jpg", "b-01.jpg", "c0.jpg", "c1.jpg", "c2.jpg",
        "c3.jpg", "d-02.jpg", "e0.jpg", "e1.jpg"]).length = 10) ∧
    ((sfGuides ["a0.jpg", "a1.jpg", "b-01.jpg", "c0.jpg", "c1.jpg", "c2.jpg",
        "c3.jpg", "d-02.jpg", "e0.jpg", "e1.jpg"]).map GuideInfo.index = [2, 7]) ∧
    ((sfBatches ["a0.jpg", "a1.jpg", "b-01.jpg", "c0.jpg", "c1.jpg", "c2.jpg",
        "c3.jpg", "d-02.jpg", "e0.jpg", "e1.jpg"]).map
      fun b => 1 + b.filesToRename.length) = [5, 3] ∧
    ¬ (((sfBatches ["a0.jpg", "a1.jpg", "b-01.jpg", "c0.jpg", "c1.jpg", "c2.jpg",
        "c3.jpg", "d-02.jpg", "e0.jpg", "e1.jpg"]).map
      fun b => 1 + b.filesToRename.length) = [6, 3]) := by decide

/-- Witness for the amended C1 at the same concrete 10-file listing. -/
theorem sf_c1_batch_bounds_witness :
    ((sfBatches ["a0.jpg", "a1.jpg", "b-01.jpg", "c0.jpg", "c1.jpg", "c2.jpg",
        "c3.jpg", "d-02.jpg", "e0.jpg", "e1.jpg"]).map fun b => b.filesToRename) =
      [pySlice (sfAllFiles ["a0.jpg", "a1.jpg", "b-01.jpg", "c0.jpg", "c1.jpg",
        "c2.jpg", "c3.jpg", "d-02.jpg", "e0.jpg", "e1.jpg"]) 3 7,
       pySlice (sfAllFiles ["a0.jpg", "a1.jpg", "b-01.jpg", "c0.jpg", "c1.jpg",
        "c2.jpg", "c3.jpg", "d-02.jpg", "e0.jpg", "e1.jpg"]) 8 10] ∧
    ((sfBatches ["a0.jpg", "a1.jpg", "b-01.jpg", "c0.jpg", "c1.jpg", "c2.jpg",
        "c3.jpg", "d-02.jpg", "e0.jpg", "e1.jpg"]).map
      fun b => 1 + b.filesToRename.length) = [5, 3] :=
  sf_c1_batch_bounds ["a0.jpg", "a1.jpg", "b-01.jpg", "c0.jpg", "c1.jpg", "c2.jpg",
    "c3.jpg", "d-02.jpg", "e0.jpg", "e1.jpg"] (by decide) (by decide)

/-- Claim C10 (implicit): in single-folder mode, every supported image file
whose sorted position precedes the first guide photo belongs to no batch:
it is not any batch's guide file, is in no batch's files-to-rename (so it
is never copied, renamed, or counted in any batch's file count), it is the
source of no attempted copy of the run, and no warning or diagnostic of
the run mentions it.  (The file list is `Nodup`, as a directory listing
is.) -/
theorem sf_c10_pre_guide_ignored (listing : List String) (region date : String)
    (angleNum i : Nat) (f : String) (g0 : GuideInfo)
    (hnd : (sfAllFiles listing).Nodup)
    (hg : (sfGuides listing).head? = some g0)
    (hi : i < g0.index)
    (hf : (sfAllFiles listing)[i]? = some f) :
    (∀ b ∈ sfBatches listing, f ≠ b.guideFile ∧ f ∉ b.filesToRename) ∧
    (∀ dst, (f, dst) ∉ sfCopies (singleFolderRun listing region date angleNum)) ∧
    f ∉ sfWarnedFiles (singleFolderRun listing region date angleNum) := by
  have hnotdrop : f ∉ (sfAllFiles listing).drop (i + 1) := nodup_not_mem_drop hnd hf
  have hguide : ∀ g ∈ sfGuides listing,
      g.filename ∈ (sfAllFiles listing).drop (i + 1) := by
    intro g hgm
    obtain ⟨h0, hlt, hget⟩ := guideScan_mem hgm
    have h2 : g0.index ≤ g.index := guideScan_head_min hg hgm
    have h3 : (sfAllFiles listing)[g.index]? = some g.filename := by
      simpa using hget
    apply mem_of_getElemOpt (g.index - (i + 1))
    rw [List.getElem?_drop, show i + 1 + (g.index - (i + 1)) = g.index by omega]
    exact h3
  have hbatch : ∀ b ∈ sfBatches listing, f ≠ b.guideFile ∧ f ∉ b.filesToRename := by
    intro b hb
    obtain ⟨g, hgm, hgf, hbid, e, hrn⟩ := mkBatches_mem hb
    have h2 : g0.index ≤ g.index := guideScan_head_min hg hgm
    constructor
    · intro hfe
      apply hnotdrop
      rw [hfe, hgf]
      exact hguide g hgm
    · intro hmem
      apply hnotdrop
      rw [hrn] at hmem
      have hm2 : f ∈ ((sfAllFiles listing).drop g.index).drop 1 := by
        unfold pySlice at hmem
        rw [List.drop_take] at hmem
        exact List.take_subset _ _ hmem
      rw [List.drop_drop] at hm2
      exact drop_subset_drop _ (by omega) hm2
  refine ⟨hbatch, ?_, ?_⟩
  · intro dst hmem
    cases hrun : singleFolderRun listing region date angleNum with
    | ok c zw lw =>
      rw [hrun] at hmem
      simp only [sfCopies] at hmem
      obtain ⟨hc, -, -, -⟩ := sfRun_ok_inv hrun
      rw [hc] at hmem
      obtain ⟨b, hb, hpb⟩ := List.mem_flatMap.mp hmem
      simp only [batchCopies] at hpb
      rcases List.mem_cons.mp hpb with h1 | h2
      · exact (hbatch b hb).1 (congrArg Prod.fst h1)
      · exact (hbatch b hb).2 (renameBatchFiles_mem_inv h2).1
    | noImages => rw [hrun] at hmem; simp [sfCopies] at hmem
    | noGuides => rw [hrun] at hmem; simp [sfCopies] at hmem
    | inconsistent d => rw [hrun] at hmem; simp [sfCopies] at hmem
    | notDivisible n a => rw [hrun] at hmem; simp [sfCopies] at hmem
    | zeroDivisionError => rw [hrun] at hmem; simp [sfCopies] at hmem
    | chrValueError => rw [hrun] at hmem; simp [sfCopies] at hmem
  · intro hmem
    cases hrun : singleFolderRun listing region date angleNum with
    | ok c zw lw =>
      obtain ⟨-, -, hlw, hgne⟩ := sfRun_ok_inv hrun
      rw [leftoverWarning_none hgne] at hlw
      rw [hrun, hlw] at hmem
      simp [sfWarnedFiles] at hmem
    | inconsistent d =>
      have hd := sfRun_inconsistent_inv hrun
      rw [hrun] at hmem
      simp only [sfWarnedFiles, hd, List.map_map] at hmem
      obtain ⟨b, hb, hbf⟩ := List.mem_map.mp hmem
      apply (hbatch b hb).1
      rw [← hbf]
      rfl
    | noImages => rw [hrun] at hmem; simp [sfWarnedFiles] at hmem
    | noGuides => rw [hrun] at hmem; simp [sfWarnedFiles] at hmem
    | notDivisible n a => rw [hrun] at hmem; simp [sfWarnedFiles] at hmem
    | zeroDivisionError => rw [hrun] at hmem; simp [sfWarnedFiles] at hmem
    | chrValueError => rw [hrun] at hmem; simp [sfWarnedFiles] at hmem

/-- Witness for C10: in the run on `["a.jpg", "b-01.jpg", "c.jpg"]` the
file `"a.jpg"` (sorted position 0, before the guide at position 1) is not
the source of the copy that renames `"c.jpg"`, and appears in no warning. -/
theorem sf_c10_pre_guide_ignored_witness :
    ("a.jpg", "SY-250623-0101-A.jpg") ∉
      sfCopies (singleFolderRun ["a.jpg", "b-01.jpg", "c.jpg"] "SY" "250623" 1) ∧
    "a.jpg" ∉ sfWarnedFiles (singleFolderRun ["a.jpg", "b-01.jpg", "c.jpg"] "SY" "250623" 1) := by
  have h := sf_c10_pre_guide_ignored ["a.jpg", "b-01.jpg", "c.jpg"] "SY" "250623" 1 0
    "a.jpg" ⟨"b-01.jpg", 1, "01"⟩ (by decide) (by decide) (by decide) (by decide)
  exact ⟨h.2.1 _, h.2.2⟩

/-! ### Subfolder-mode lemmas -/

theorem processEntry_nil_files (region date : String) (bp root : List String) :
    processEntry region date bp (root, []) = [] := by
  unfold processEntry
  split
  · rfl
  · split
    · rfl
    · dsimp only
      split
      · rfl
      · rfl

theorem getElem_zip {α β : Type} :
    ∀ (l : List α) (l' : List β) (j : Nat) (a : α) (b : β),
      l[j]? = some a → l'[j]? = some b → (l.zip l')[j]? = some (a, b) := by
  intro l
  induction l with
  | nil => intro l' j a b h; simp at h
  | cons x xs ih =>
    intro l' j a b h h2
    cases l' with
    | nil => simp at h2
    | cons y ys =>
      cases j with
      | zero =>
        simp only [List.getElem?_cons_zero, Option.some.injEq] at h h2
        simp [List.zip_cons_cons, h, h2]
      | succ j2 =>
        simp only [List.getElem?_cons_succ] at h h2
        simpa [List.zip_cons_cons] using ih ys j2 a b h h2

theorem processEntry_eq (region date : String) (bp root : List String)
    (files : List String)
    (h1 : root ≠ bp ++ [RENAMED_FOLDER_NAME]) (h2 : root ≠ bp)
    (h3 : (pyIsDigit (root.getLast?.getD "") &&
      (root.getLast?.getD "").length == 4) = true)
    (h4 : pySort (files.filter isSupportedImage) ≠ []) :
    processEntry region date bp (root, files) =
      ((pySort (files.filter isSupportedImage)).zip angleSuffixes).map fun p =>
        (root, p.1, subNewName region date (root.getLast?.getD "") p.2 p.1) := by
  unfold processEntry
  rw [if_neg h1, if_neg h2]
  dsimp only
  rw [h3, Bool.not_true]
  rw [if_neg (by decide), if_neg (by simp only [List.isEmpty_iff]; exact h4)]

/-- Claim C2, corrected: in subfolder mode, files are *not* copied only from
immediate child directories of the base directory: `os.walk` recurses into
every depth and only the basename of the visited directory is checked, so
a directory nested two levels below the base whose name is a 4-digit
string has its supported images copied.  (Parametric in the directory
names, the 4-digit sample name and the image filename.) -/
theorem sub_c2_nested_processed (base mid dddd f region date : String)
    (hd : (pyIsDigit dddd && dddd.length == 4) = true)
    (hf : isSupportedImage f = true) :
    subfolderRun
      (.node base (.cons (.node mid (.cons (.node dddd .nil [f]) .nil) []) .nil) [])
      region date =
      [([base, mid, dddd], f, subNewName region date dddd "A" f)] := by
  have e1 : processEntry region date [base] ([base], ([] : List String)) = [] :=
    processEntry_nil_files region date [base] [base]
  have e2 : processEntry region date [base] ([base, mid], ([] : List String)) = [] :=
    processEntry_nil_files region date [base] [base, mid]
  have e3 : processEntry region date [base] ([base, mid, dddd], [f]) =
      [([base, mid, dddd], f, subNewName region date dddd "A" f)] := by
    have hfil : [f].filter isSupportedImage = [f] := by
      simp [List.filter, hf]
    have hsort : pySort ([f].filter isSupportedImage) = [f] := by
      rw [hfil]; rfl
    rw [processEntry_eq region date [base] [base, mid, dddd] [f]
      (by simp [RENAMED_FOLDER_NAME]) (by simp) (by simpa using hd)
      (by rw [hsort]; simp)]
    rw [hsort]
    rfl
  show ((walkTree [] _).flatMap (processEntry region date [base])) = _
  simp only [walkTree, walkForest, List.nil_append, List.append_nil,
    List.cons_append, List.singleton_append, List.flatMap_cons, List.flatMap_nil]
  rw [e1, e2, e3]
  rfl

/-- Counterexample refuting C2 as stated, at a concrete tree: the
directory `base/extra/1234`, nested two levels below the base, has its
file copied (its walk path has 3 components, i.e. depth greater than an
immediate child's 2). -/
theorem sub_c2_nested_copied_cex :
    subfolderRun
      (.node "HR250701"
        (.cons (.node "extra" (.cons (.node "1234" .nil ["x.jpg"]) .nil) []) .nil) [])
      "HR" "250701" =
      [(["HR250701", "extra", "1234"], "x.jpg", "HR-250701-1234-A.jpg")] ∧
    (subfolderRun
      (.node "HR250701"
        (.cons (.node "extra" (.cons (.node "1234" .nil ["x.jpg"]) .nil) []) .nil) [])
      "HR" "250701").any (fun c => 2 < c.1.length) = true := by decide

/-- Witness for the amended C2 at concrete names. -/
theorem sub_c2_nested_processed_witness :
    subfolderRun
      (.node "SY250623" (.cons (.node "deep" (.cons (.node "0042" .nil ["pic.PNG"]) .nil) []) .nil) [])
      "SY" "250623" =
      [(["SY250623", "deep", "0042"], "pic.PNG", subNewName "SY" "250623" "0042" "A" "pic.PNG")] :=
  sub_c2_nested_processed "SY250623" "deep" "0042" "pic.PNG" "SY" "250623"
    (by decide) (by decide)

/-- Claim C8: in subfolder mode, for a 4-digit-named sample folder containing
`N` supported images: if `N ≤ 4` exactly `N` files are copied, named with
angle suffixes `A..(A+N-1)` assigned in lexicographically sorted order of
the input filenames; if `N > 4` only the first 4 sorted files are copied
(with suffixes A-D) and the remaining files are skipped and not copied. -/
theorem sub_c8_sample_copies (region date : String) (bp root : List String)
    (files : List String)
    (h1 : root ≠ bp ++ [RENAMED_FOLDER_NAME]) (h2 : root ≠ bp)
    (h3 : (pyIsDigit (root.getLast?.getD "") &&
      (root.getLast?.getD "").length == 4) = true)
    (h4 : pySort (files.filter isSupportedImage) ≠ []) :
    ((processEntry region date bp (root, files)).length =
      min (pySort (files.filter isSupportedImage)).length 4) ∧
    ((processEntry region date bp (root, files)).map (fun c => c.2.1) =
      (pySort (files.filter isSupportedImage)).take 4) ∧
    (∀ j fj, (pySort (files.filter isSupportedImage))[j]? = some fj → j < 4 →
      (processEntry region date bp (root, files))[j]? =
        some (root, fj, subNewName region date (root.getLast?.getD "")
          (String.mk [Char.ofNat (65 + j)]) fj)) ∧
    (∀ fj ∈ (pySort (files.filter isSupportedImage)).drop 4,
      (pySort (files.filter isSupportedImage)).Nodup →
      ∀ dst, (root, fj, dst) ∉ processEntry region date bp (root, files)) := by
  have he := processEntry_eq region date bp root files h1 h2 h3 h4
  rw [he]
  have hlen4 : angleSuffixes.length = 4 := rfl
  refine ⟨?_, ?_, ?_, ?_⟩
  · rw [List.length_map, List.length_zip, hlen4]
  · rw [List.map_map]
    have hco : ((fun c => c.2.1) ∘ fun p =>
        ((root : List String), p.1,
          subNewName region date (root.getLast?.getD "") p.2 p.1)) =
        (Prod.fst : String × String → String) := by
      funext p
      rfl
    rw [hco, map_fst_zip_eq_take, hlen4]
  · intro j fj hj hj4
    have hsuf : angleSuffixes[j]? = some (String.mk [Char.ofNat (65 + j)]) := by
      interval_cases j <;> decide
    rw [List.getElem?_map,
      getElem_zip (pySort (files.filter isSupportedImage)) angleSuffixes j fj
        (String.mk [Char.ofNat (65 + j)]) hj hsuf]
    rfl
  · intro fj hfj hnd dst hmem
    obtain ⟨p, hp, he2⟩ := List.mem_map.mp hmem
    have hfst : p.1 = fj := by
      have := congrArg (fun t => t.2.1) he2
      simpa using this
    have hp1 : fj ∈ ((pySort (files.filter isSupportedImage)).zip angleSuffixes).map
        Prod.fst := by
      rw [← hfst]
      exact List.mem_map_of_mem Prod.fst hp
    rw [map_fst_zip_eq_take, hlen4] at hp1
    exact List.disjoint_take_drop hnd le_rfl hp1 hfj

/-- Witness for C8: a sample folder with 6 supported images yields exactly
4 copies A-D of the sorted first four, and the 5th sorted file is not
copied. -/
theorem sub_c8_sample_copies_witness :
    ((processEntry "HR" "250701" ["HR250701"] (["HR250701", "0001"],
      ["f5.jpg", "f1.JPG", "f2.png", "f3.jpg", "f4.jpg", "f6.png"])).length =
      min (pySort ((["f5.jpg", "f1.JPG", "f2.png", "f3.jpg", "f4.jpg",
        "f6.png"]).filter isSupportedImage)).length 4) ∧
    ((processEntry "HR" "250701" ["HR250701"] (["HR250701", "0001"],
      ["f5.jpg", "f1.JPG", "f2.png", "f3.jpg", "f4.jpg", "f6.png"]))[0]? =
      some (["HR250701", "0001"], "f1.JPG", subNewName "HR" "250701" "0001"
        (String.mk [Char.ofNat 65]) "f1.JPG")) ∧
    (∀ dst, (["HR250701", "0001"], "f5.jpg", dst) ∉
      processEntry "HR" "250701" ["HR250701"] (["HR250701", "0001"],
        ["f5.jpg", "f1.JPG", "f2.png", "f3.jpg", "f4.jpg", "f6.png"])) := by
  have h := sub_c8_sample_copies "HR" "250701" ["HR250701"] ["HR250701", "0001"]
    ["f5.jpg", "f1.JPG", "f2.png", "f3.jpg", "f4.jpg", "f6.png"]
    (by decide) (by decide) (by decide) (by decide)
  refine ⟨h.1, ?_, ?_⟩
  · have := h.2.2.1 0 "f1.JPG" (by decide) (by decide)
    simpa using this
  · intro dst
    exact h.2.2.2 "f5.jpg" (by decide) (by decide) dst

end RenameImages
